import Mathlib

/-!
Shallow embedding of the navigation transition engine of this vue-router
repository (`src/history/base.js`), together with the route diff, guard
extraction, guard queue runner and ready/error bookkeeping it relies on.

Modelling conventions:
* JS reference identity on route objects and route records is modelled by
  decidable equality on values carrying a numeric `rid`; distinct allocations
  are represented by values with distinct ids.
* JS `undefined` entries are modelled by `Option`.
* Guards are callback-driven in the source; here a guard is a numeric id whose
  behaviour — the value it eventually passes to its continuation, together
  with any state mutation performed by code that ran while the guard was
  suspended (for example a newer `transitionTo` call reassigning `pending`) —
  is supplied by an environment `GuardEnv`.  All observable side effects
  (address-bar synchronisation, listener callbacks, hook invocations,
  abort/complete callbacks) are recorded in an event trace.
-/

namespace VRouter

/-- One component definition attached to a named slot of a route record.
Each in-component hook kind holds a list of guard ids: the option-merge
strategy installed in `src/install.js` (`strats.beforeRouteEnter = …
strats.created`) stores these hooks in array form. -/
structure ComponentDef where
  beforeRouteLeave : List Nat
  beforeRouteUpdate : List Nat
  beforeRouteEnter : List Nat
deriving DecidableEq

/-- One entry of the compiled route table.  `components` are the named
component slots, `instances` maps a slot name to the id of the currently
registered live instance (absent when none is registered), `beforeEnter` is
the optional in-config guard of `base.js:151`. -/
structure RouteRecord where
  rid : Nat
  components : List (String × ComponentDef)
  instances : List (String × Nat)
  beforeEnter : Option Nat
deriving DecidableEq

/-- Immutable route snapshot produced by the matcher: `path`, `hash`, `query`,
`params` and the ordered `matched` chain of route records from root to leaf. -/
structure Route where
  rid : Nat
  path : String
  hash : String
  query : List (String × String)
  params : List (String × String)
  matched : List RouteRecord
deriving DecidableEq

/-- Modelled from the spec: the `START` sentinel route (`util/route.js` is not
under `src/`) — "a distinguished sentinel Route … has an empty `matched`
sequence and empty path". -/
def START : Route :=
  { rid := 0, path := "", hash := "", query := [], params := [], matched := [] }

/-- Modelled from the spec: trailing-slash normalisation used by route
equality — a single trailing `/` is removed (`path.replace(/\/$/, '')`). -/
def stripTrailingSlash (p : String) : String :=
  if p.data.getLast? = some '/' then String.mk p.data.dropLast else p

/-- Modelled from the spec: order-insensitive map equality ("same keys and
values") used for the `query` and `params` comparisons of route equality. -/
def mapsEq (a b : List (String × String)) : Bool :=
  a.all (fun p => b.lookup p.1 == some p.2) && b.all (fun p => a.lookup p.1 == some p.2)

/-- Modelled from the spec: `isSameRoute` (`util/route.js` is not under
`src/`) — two routes are the same iff both are the `START` sentinel, or their
trailing-slash-normalised paths, hashes, query maps and params maps all
agree. -/
def isSameRoute (a b : Route) : Bool :=
  (decide (a = START) && decide (b = START)) ||
    (stripTrailingSlash a.path == stripTrailingSlash b.path &&
      a.hash == b.hash && mapsEq a.query b.query && mapsEq a.params b.params)

/-- Index loop of `resolveQueue` (`base.js:276-282`): the first index at which
the two matched sequences differ by reference, scanning up to the longer
length; out-of-range access yields `undefined`, which differs from every
record, so the loop breaks at the shorter length when one sequence is a
proper prefix of the other and reaches the common length on equal inputs. -/
def resolveIdx : List RouteRecord → List RouteRecord → Nat
  | a :: as, b :: bs => if a = b then resolveIdx as bs + 1 else 0
  | _, _ => 0

/-- Result of the route diff: the three segment classes. -/
structure RQ where
  updated : List RouteRecord
  activated : List RouteRecord
  deactivated : List RouteRecord
deriving DecidableEq

/-- `resolveQueue` (`base.js:268-288`): splits `next` at the first index `i`
whose record differs by reference from `current`, giving `updated =
next.slice(0, i)`, `activated = next.slice(i)`, `deactivated =
current.slice(i)`. -/
def resolveQueue (current next : List RouteRecord) : RQ :=
  let i := resolveIdx current next
  { updated := next.take i, activated := next.drop i, deactivated := current.drop i }

/-- A JS value passed by a guard to its continuation `next`.  `vObject` keeps
exactly what the iterator inspects: whether `path` and `name` are strings, and
the `replace` flag.  `vFunction` carries the id of a post-enter callback. -/
inductive NextVal where
  | vUndefined
  | vTrue
  | vFalse
  | vError (e : Nat)
  | vString (s : String)
  | vObject (path : Option String) (name : Option String) (rep : Bool)
  | vFunction (f : Nat)
deriving DecidableEq

/-- Modelled from the spec: `isError` (`util/warn.js` is not under `src/`) —
recognises "an Error value". -/
def isErrVal : NextVal → Bool
  | .vError _ => true
  | _ => false

/-- JS truthiness of a resolution value, used by `transitionTo`'s
`if (err && !this.ready)` check (`base.js:95`).  Only `undefined`, `false` and
error values ever reach that check. -/
def truthy : NextVal → Bool
  | .vUndefined => false
  | .vTrue => true
  | .vFalse => false
  | .vError _ => true
  | .vString s => decide (s ≠ "")
  | .vObject _ _ _ => true
  | .vFunction _ => true

/-- Truthiness of the optional abort reason (`undefined` when absent). -/
def errTruthy : Option NextVal → Bool
  | none => false
  | some v => truthy v

/-- Redirect test of the resolution handler (`base.js:172-177`): a string, or
an object whose `path` or `name` field is a string. -/
def isRedirectVal : NextVal → Bool
  | .vString _ => true
  | .vObject p n _ => p.isSome || n.isSome
  | _ => false

/-- Replace-mode test of the redirect branch (`base.js:181`):
`typeof to === 'object' && to.replace`. -/
def redirectReplace : NextVal → Bool
  | .vObject _ _ r => r
  | _ => false

/-- An entry of the guard queue: a plain (global, bound in-component, or
in-config) guard, a wrapped enter guard carrying its record and slot key
(`bindEnterGuard`), or the async-component resolution step. -/
inductive QItem where
  | guard (g : Nat)
  | enterGuard (g : Nat) (m : RouteRecord) (key : String)
  | asyncResolve (activated : List RouteRecord)
deriving DecidableEq

/-- Modelled from the spec: `flatMapComponents` (`util/resolve-components.js`
is not under `src/`) — "for each record, for each named component slot", apply
`fn` to the slot's definition, its live instance, the record and the key, and
flatten the per-record results one level.  Each slot value is the list of
bound guards the slot contributes (array-form hooks, see `ComponentDef`). -/
def flatMapComponents (records : List RouteRecord)
    (fn : ComponentDef → Option Nat → RouteRecord → String → List (Option QItem)) :
    List (List (Option QItem)) :=
  (records.map (fun m => m.components.map (fun ck => fn ck.2 (m.instances.lookup ck.1) m ck.1))).flatten

/-- `extractGuards` (`base.js:290-305`): map every component slot of `records`
to its bound guards under `sel`, reverse the flat slot-level list when
`rev` is set, and flatten.  Unresolved entries stay as `none` placeholders
(the queue runner skips them), matching the `undefined` entries the source
keeps in the queue. -/
def extractGuards (records : List RouteRecord) (sel : ComponentDef → List Nat)
    (bind : Nat → Option Nat → RouteRecord → String → Option QItem) (rev : Bool) :
    List (Option QItem) :=
  let guards := flatMapComponents records (fun d i m k => (sel d).map (fun g => bind g i m k))
  (if rev then guards.reverse else guards).flatten

/-- `bindGuard` (`base.js:326-332`): a leave/update guard is kept only when the
slot has a live instance; otherwise the entry is `undefined`. -/
def bindGuard (g : Nat) (inst : Option Nat) (_m : RouteRecord) (_k : String) : Option QItem :=
  match inst with
  | some _ => some (QItem.guard g)
  | none => none

/-- `extractLeaveGuards` (`base.js:318-320`): leave guards of the deactivated
records, in reverse order. -/
def extractLeaveGuards (deactivated : List RouteRecord) : List (Option QItem) :=
  extractGuards deactivated (fun d => d.beforeRouteLeave) bindGuard true

/-- `extractUpdateHooks` (`base.js:322-324`): update guards of the updated
records, in forward order. -/
def extractUpdateHooks (updated : List RouteRecord) : List (Option QItem) :=
  extractGuards updated (fun d => d.beforeRouteUpdate) bindGuard false

/-- Binder used by `extractEnterGuards` (`base.js:334-342`): enter guards are
extracted even without a live instance and wrapped with their record and slot
key (`bindEnterGuard`). -/
def bindEnter (g : Nat) (_inst : Option Nat) (m : RouteRecord) (k : String) : Option QItem :=
  some (QItem.enterGuard g m k)

/-- `extractEnterGuards` (`base.js:334-342`). -/
def extractEnterGuards (activated : List RouteRecord) : List (Option QItem) :=
  extractGuards activated (fun d => d.beforeRouteEnter) bindEnter false

/-- The router instance as seen by the history controller: the three global
hook registries, in registration order, and whether a root app is attached
(`this.router.app`, `base.js:215`). -/
structure Router where
  beforeHooks : List Nat
  resolveHooks : List Nat
  afterHooks : List Nat
  hasApp : Bool
deriving DecidableEq

/-- Guard queue built by `confirmTransition` (`base.js:136-156`): leave guards
of `deactivated` (reversed), global before hooks, update guards of `updated`,
`beforeEnter` guards taken directly off the `activated` records, then the
async-component resolution step. -/
def confirmQueue (router : Router) (rq : RQ) : List (Option QItem) :=
  extractLeaveGuards rq.deactivated
    ++ router.beforeHooks.map (fun g => some (QItem.guard g))
    ++ extractUpdateHooks rq.updated
    ++ rq.activated.map (fun m => m.beforeEnter.map QItem.guard)
    ++ [some (QItem.asyncResolve rq.activated)]

/-- Mutable state of the `History` controller (`base.js:36-46`): the committed
`current` route, the in-flight `pending` route, the `ready` flag, the three
callback registries and the single listener slot set by `listen`. -/
structure HistState where
  current : Route
  pending : Option Route
  ready : Bool
  readyCbs : List Nat
  readyErrorCbs : List Nat
  errorCbs : List Nat
  cb : Option Nat
deriving DecidableEq

/-- Observable side effects of the controller, in execution order. -/
inductive Event where
  | guardCalled (item : QItem)
  | ensureURL (push : Bool)
  | abortCb (err : Option NextVal)
  | errorCb (c : Nat) (e : Nat)
  | warnUncaught (e : Nat)
  | completeCb (r : Route)
  | listenCb (c : Nat) (r : Route)
  | afterHook (h : Nat) (tgt prev : Route)
  | readyCb (c : Nat) (arg : Option Route)
  | readyErrCb (c : Nat) (err : Option NextVal)
  | pushLoc (v : NextVal)
  | replaceLoc (v : NextVal)
  | postEnterQueued (rid : Nat) (key : String) (f : Nat)
  | nextTickScheduled
deriving DecidableEq

/-- What a guard does when invoked: call its continuation with a value, or
throw synchronously. -/
inductive GuardAction where
  | resolve (v : NextVal)
  | throwErr (e : Nat)
deriving DecidableEq

/-- Behaviour environment for guards.  A guard may mutate the controller state
before resolving: this models code (such as a newer `transitionTo` call) that
runs while the guard is suspended. -/
abbrev GuardEnv := Nat → HistState → GuardAction × HistState

/-- Modelled from the spec: behaviour of `resolveAsyncComponents`
(`util/resolve-components.js` is not under `src/`) — "an asynchronous step
that resolves any lazily-loaded component definitions referenced by
`activated` records … it must call its continuation once loading completes,
and must surface a loading error as an abort with that error".  Like a guard,
it eventually produces a `GuardAction`; the environment chooses between
successful resolution and a loading error. -/
abbrev AsyncBeh := List RouteRecord → HistState → GuardAction × HistState

/-- Result of one iterator invocation: continue with the value passed to
`next` (plus events emitted before and after the rest of the queue runs —
`bindEnterGuard` pushes its post-enter callback only after `next` returns,
`base.js:352-363`), or stop the queue. -/
inductive StepResult where
  | next (v : NextVal) (st : HistState) (evsB evsA : List Event)
  | stop (st : HistState) (evs : List Event)
deriving DecidableEq

/-- The `abort` closure of `confirmTransition` (`base.js:105-115`): when the
reason is an error value, notify the registered global error listeners, or log
an uncaught warning when none are registered; then invoke the per-call
`onAbort` callback.  Note that `pending` is not touched here. -/
def doAbort (onAbort : Option NextVal → HistState → HistState × List Event)
    (st : HistState) (err : Option NextVal) : HistState × List Event :=
  let errEvs :=
    match err with
    | some (NextVal.vError e) =>
        if st.errorCbs = [] then [Event.warnUncaught e]
        else st.errorCbs.map (fun c => Event.errorCb c e)
    | _ => []
  let r := onAbort err st
  (r.1, errEvs ++ r.2)

/-- Post-enter registration performed by the `bindEnterGuard` wrapper
(`base.js:351-365`) when an enter guard resolves with a function value: the
callback is pushed onto the side list after `next` returns, so the event is
emitted after the remainder of the queue has run. -/
def postEnterEvs (item : QItem) (v : NextVal) : List Event :=
  match item, v with
  | QItem.enterGuard _ m k, NextVal.vFunction f => [Event.postEnterQueued m.rid k f]
  | _, _ => []

/-- The resolution handler passed by the iterator to each guard
(`base.js:167-190`): `false` or an error aborts after re-synchronising the
URL; a location-like value aborts with no error and starts a new navigation
(replace-mode when the object asks for it); any other value proceeds,
and an enter guard resolving with a function queues a post-enter callback. -/
def applyNextVal (onAbort : Option NextVal → HistState → HistState × List Event)
    (item : QItem) (st : HistState) (v : NextVal) : StepResult :=
  if v = NextVal.vFalse ∨ isErrVal v = true then
    let r := doAbort onAbort st (some v)
    .stop r.1 (Event.ensureURL true :: r.2)
  else if isRedirectVal v = true then
    let r := doAbort onAbort st none
    .stop r.1 (r.2 ++ [if redirectReplace v then Event.replaceLoc v else Event.pushLoc v])
  else
    .next v st [] (postEnterEvs item v)

/-- Behaviour of one queue item: a plain or enter guard defers to the guard
environment, the async-resolution step to its own behaviour. -/
def itemAction (env : GuardEnv) (asyncBeh : AsyncBeh) (item : QItem) (st : HistState) :
    GuardAction × HistState :=
  match item with
  | .guard g => env g st
  | .enterGuard g _ _ => env g st
  | .asyncResolve recs => asyncBeh recs st

/-- The iterator of `confirmTransition` (`base.js:161-194`): abort when the
shared `pending` field no longer holds this transition's route; otherwise
invoke the guard, converting a synchronous throw into an abort with that
error, and interpret the value it passes to its continuation. -/
def iteratorStep (env : GuardEnv) (asyncBeh : AsyncBeh)
    (onAbort : Option NextVal → HistState → HistState × List Event)
    (route _current : Route) (item : QItem) (st : HistState) : StepResult :=
  if st.pending ≠ some route then
    let r := doAbort onAbort st none
    .stop r.1 r.2
  else
    let a := itemAction env asyncBeh item st
    match a.1 with
    | .throwErr e =>
        let r := doAbort onAbort a.2 (some (NextVal.vError e))
        .stop r.1 (Event.guardCalled item :: r.2)
    | .resolve v =>
        match applyNextVal onAbort item a.2 v with
        | .stop s evs => .stop s (Event.guardCalled item :: evs)
        | .next v s evsB evsA => .next v s (Event.guardCalled item :: evsB) evsA

/-- Modelled from the spec: `runQueue` (`util/async.js` is not under `src/`) —
"runs an ordered list of guard-like steps one at a time, stopping on the first
abort …, short-circuiting on falsy steps"; reaching the end invokes the final
callback exactly once. -/
def runQueueGo (iter : QItem → HistState → StepResult)
    (final : HistState → HistState × List Event) :
    List (Option QItem) → HistState → HistState × List Event
  | [], st => final st
  | none :: rest, st => runQueueGo iter final rest st
  | some item :: rest, st =>
      match iter item st with
      | .stop s evs => (s, evs)
      | .next _ s evsB evsA =>
          let r := runQueueGo iter final rest s
          (r.1, evsB ++ r.2 ++ evsA)

/-- Completion callback of the second queue (`base.js:208-220`): re-check the
stale-transition guard, clear `pending`, invoke `onComplete`, and schedule the
post-enter callbacks on the next tick when a root app is attached. -/
def stage2Final (router : Router) (route : Route)
    (onComplete : HistState → HistState × List Event)
    (onAbort : Option NextVal → HistState → HistState × List Event)
    (st : HistState) : HistState × List Event :=
  if st.pending ≠ some route then doAbort onAbort st none
  else
    let r := onComplete { st with pending := none }
    (r.1, r.2 ++ if router.hasApp then [Event.nextTickScheduled] else [])

/-- Completion callback of the first queue (`base.js:197-208`): extract the
enter guards of `activated` (components are resolved by now), append the
global resolve hooks, and run this second queue with the same iterator. -/
def stage1Final (env : GuardEnv) (asyncBeh : AsyncBeh) (router : Router)
    (route current : Route) (activated : List RouteRecord)
    (onComplete : HistState → HistState × List Event)
    (onAbort : Option NextVal → HistState → HistState × List Event)
    (st : HistState) : HistState × List Event :=
  let queue2 := extractEnterGuards activated
    ++ router.resolveHooks.map (fun g => some (QItem.guard g))
  runQueueGo (iteratorStep env asyncBeh onAbort route current)
    (stage2Final router route onComplete onAbort) queue2 st

/-- `confirmTransition` (`base.js:103-222`): short-circuit a navigation to a
route structurally equal to `current` with an equal matched count; otherwise
diff the matched chains, build the guard queue, set `pending` and run the two
pipelines. -/
def confirmTransition (env : GuardEnv) (asyncBeh : AsyncBeh) (router : Router)
    (st : HistState) (route : Route)
    (onComplete : HistState → HistState × List Event)
    (onAbort : Option NextVal → HistState → HistState × List Event) :
    HistState × List Event :=
  let current := st.current
  if isSameRoute route current && route.matched.length == current.matched.length then
    let r := doAbort onAbort st none
    (r.1, Event.ensureURL false :: r.2)
  else
    let rq := resolveQueue current.matched route.matched
    runQueueGo (iteratorStep env asyncBeh onAbort route current)
      (stage1Final env asyncBeh router route current rq.activated onComplete onAbort)
      (confirmQueue router rq) { st with pending := some route }

/-- `updateRoute` (`base.js:225-237`): replace `current`, invoke the single
listener callback registered via `listen`, then invoke every global after
hook with the new and previous routes, in registration order. -/
def updateRoute (router : Router) (st : HistState) (route : Route) :
    HistState × List Event :=
  let prev := st.current
  ({ st with current := route },
    (match st.cb with
     | some c => [Event.listenCb c route]
     | none => [])
      ++ router.afterHooks.map (fun h => Event.afterHook h route prev))

/-- Success continuation passed by `transitionTo` (`base.js:76-90`): commit
via `updateRoute`, invoke the per-call `onComplete`, synchronise the URL, and
flush the ready callbacks the first time. -/
def onCompleteT (router : Router) (route : Route) (st : HistState) :
    HistState × List Event :=
  let r := updateRoute router st route
  let evs := r.2 ++ [Event.completeCb route, Event.ensureURL false]
  if r.1.ready then (r.1, evs)
  else ({ r.1 with ready := true },
    evs ++ r.1.readyCbs.map (fun c => Event.readyCb c (some route)))

/-- Failure continuation passed by `transitionTo` (`base.js:91-99`): invoke
the per-call `onAbort`, and when the reason is truthy and this is the first
resolution, flip `ready` and flush the ready-error callbacks. -/
def onAbortT (err : Option NextVal) (st : HistState) : HistState × List Event :=
  if errTruthy err = true ∧ st.ready = false then
    ({ st with ready := true },
      Event.abortCb err :: st.readyErrorCbs.map (fun c => Event.readyErrCb c err))
  else (st, [Event.abortCb err])

/-- `transitionTo` (`base.js:71-100`) after the external matcher has produced
the candidate `route`: run `confirmTransition` with the commit and abort
continuations above. -/
def transitionToRoute (env : GuardEnv) (asyncBeh : AsyncBeh) (router : Router)
    (st : HistState) (route : Route) : HistState × List Event :=
  confirmTransition env asyncBeh router st route (onCompleteT router route) onAbortT

/-- `onReady` (`base.js:52-61`): once ready, invoke `cb` immediately with no
argument, dropping the optional error callback; otherwise queue both. -/
def onReady (st : HistState) (cb : Nat) (errorCb : Option Nat) :
    HistState × List Event :=
  if st.ready then (st, [Event.readyCb cb none])
  else
    ({ st with readyCbs := st.readyCbs ++ [cb],
               readyErrorCbs := st.readyErrorCbs ++ errorCb.toList }, [])

/-- A live component instance as inspected by `poll`. -/
structure Instance where
  iid : Nat
  isBeingDestroyed : Bool
deriving DecidableEq

/-- One wake-up observation of the polling loop: the record's `instances` map
and the controller's `current` route at that tick. -/
structure PollObs where
  instances : List (String × Instance)
  histCurrent : Route
deriving DecidableEq

/-- The `isValid` closure created at `base.js:199`:
`() => this.current === route`. -/
def isValidFor (route : Route) (o : PollObs) : Bool :=
  o.histCurrent == route

/-- `poll` (`base.js:368-384`): invoke the post-enter callback as soon as the
slot holds an instance that is not being destroyed; otherwise retry after a
fixed delay while the route is still valid, and abandon silently once it is
stale.  The observation list supplies what each wake-up of the timer sees;
the result is the instance the callback was invoked with, if any. -/
def poll (route : Route) (key : String) : List PollObs → Option Instance
  | [] => none
  | o :: rest =>
      match o.instances.lookup key with
      | some inst =>
          if inst.isBeingDestroyed = false then some inst
          else if isValidFor route o then poll route key rest else none
      | none => if isValidFor route o then poll route key rest else none

/-! Properties of the route diff. -/

theorem resolveIdx_agree : ∀ (c n : List RouteRecord) (j : Nat),
    j < resolveIdx c n → c.get? j = n.get? j := by
  intro c
  induction c with
  | nil => intro n j h; cases n <;> simp [resolveIdx] at h
  | cons a as ih =>
    intro n j h
    cases n with
    | nil => simp [resolveIdx] at h
    | cons b bs =>
      by_cases hab : a = b
      · subst hab
        cases j with
        | zero => simp
        | succ j' =>
          simp [resolveIdx] at h
          simpa using ih bs j' (by omega)
      · simp [resolveIdx, hab] at h

theorem resolveIdx_mismatch : ∀ (c n : List RouteRecord),
    resolveIdx c n < max c.length n.length →
    c.get? (resolveIdx c n) ≠ n.get? (resolveIdx c n) := by
  intro c
  induction c with
  | nil =>
    intro n h
    cases n with
    | nil => simp [resolveIdx] at h
    | cons b bs => simp [resolveIdx]
  | cons a as ih =>
    intro n h
    cases n with
    | nil => simp [resolveIdx]
    | cons b bs =>
      by_cases hab : a = b
      · subst hab
        simp only [resolveIdx, if_pos rfl] at h ⊢
        simpa using ih bs (by simp at h; omega)
      · simp [resolveIdx, hab, hab]

theorem resolveIdx_self : ∀ n : List RouteRecord, resolveIdx n n = n.length := by
  intro n
  induction n with
  | nil => simp [resolveIdx]
  | cons a as ih => simp [resolveIdx, ih]

/-- C3: `resolveQueue` is a pure function of the two matched sequences: with
`i = resolveIdx current next` the first index at which they differ (or the
shorter length when one is a prefix of the other, since an out-of-range
`get?` is `none`), it returns `updated = next.take i`, `activated =
next.drop i`, `deactivated = current.drop i`; consequently
`updated ++ activated = next`, identical sequences yield empty `activated`
and `deactivated`, and sequences differing already at the root yield empty
`updated`. -/
theorem c3_resolveQueue_spec (current next : List RouteRecord) :
    (resolveQueue current next).updated = next.take (resolveIdx current next) ∧
    (resolveQueue current next).activated = next.drop (resolveIdx current next) ∧
    (resolveQueue current next).deactivated = current.drop (resolveIdx current next) ∧
    (resolveQueue current next).updated ++ (resolveQueue current next).activated = next ∧
    (∀ j, j < resolveIdx current next → current.get? j = next.get? j) ∧
    (resolveIdx current next < max current.length next.length →
      current.get? (resolveIdx current next) ≠ next.get? (resolveIdx current next)) ∧
    (current = next →
      (resolveQueue current next).activated = [] ∧
      (resolveQueue current next).deactivated = []) ∧
    (current.get? 0 ≠ next.get? 0 → (resolveQueue current next).updated = []) := by
  refine ⟨rfl, rfl, rfl, List.take_append_drop _ _,
    resolveIdx_agree current next, resolveIdx_mismatch current next, ?_, ?_⟩
  · intro h
    subst h
    simp [resolveQueue, resolveIdx_self]
  · intro h
    have hz : resolveIdx current next = 0 := by
      by_contra hnz
      exact h (resolveIdx_agree current next 0 (Nat.pos_of_ne_zero hnz))
    simp [resolveQueue, hz]

def recA : RouteRecord := { rid := 1, components := [], instances := [], beforeEnter := none }

def recB : RouteRecord := { rid := 2, components := [], instances := [], beforeEnter := none }

theorem c3_resolveQueue_spec_witness :
    [recA].get? 0 ≠ [recB].get? 0 ∧ (resolveQueue [recA] [recB]).updated = [] := by
  have h := c3_resolveQueue_spec [recA] [recB]
  exact ⟨by decide, h.2.2.2.2.2.2.2 (by decide)⟩

/-! The post-enter poll protocol and the ready-callback registry. -/

/-- C9: at each wake-up, `poll` invokes the callback immediately (returning the
instance) when the slot is populated by an instance that is not being
destroyed; otherwise it retries at the next observation exactly when the
committed current route is still reference-equal to the confirmed route
(`isValidFor`), and once that route is stale it stops silently — the poll
never continues past a stale observation, so the callback is never invoked. -/
theorem c9_poll_protocol (route : Route) (key : String) (o : PollObs)
    (rest : List PollObs) :
    (∀ inst, o.instances.lookup key = some inst → inst.isBeingDestroyed = false →
      poll route key (o :: rest) = some inst) ∧
    ((∀ inst, o.instances.lookup key = some inst → inst.isBeingDestroyed = true) →
      isValidFor route o = true → poll route key (o :: rest) = poll route key rest) ∧
    ((∀ inst, o.instances.lookup key = some inst → inst.isBeingDestroyed = true) →
      isValidFor route o = false → poll route key (o :: rest) = none) ∧
    (isValidFor route o = true ↔ o.histCurrent = route) := by
  refine ⟨?_, ?_, ?_, ?_⟩
  · intro inst hl hd
    simp [poll, hl, hd]
  · intro hnr hv
    cases hl : o.instances.lookup key with
    | none => simp [poll, hl, hv]
    | some inst => simp [poll, hl, hnr inst hl, hv]
  · intro hnr hv
    cases hl : o.instances.lookup key with
    | none => simp [poll, hl, hv]
    | some inst => simp [poll, hl, hnr inst hl, hv]
  · simp [isValidFor]

def instLive : Instance := { iid := 7, isBeingDestroyed := false }

def obsLive : PollObs := { instances := [("default", instLive)], histCurrent := START }

theorem c9_poll_protocol_witness :
    poll START "default" [obsLive] = some instLive := by
  have h := c9_poll_protocol START "default" obsLive []
  exact h.1 instLive (by decide) (by decide)

/-- C10: an `onReady` call made after the `ready` flag is already true invokes
`cb` synchronously with no route argument and discards the optional error
callback without storing it; when `ready` is still false, `cb` is queued and
the error callback is queued exactly when it was provided. -/
theorem c10_onReady_after_ready (st : HistState) (cb : Nat) (errorCb : Option Nat) :
    (st.ready = true → onReady st cb errorCb = (st, [Event.readyCb cb none])) ∧
    (st.ready = false → onReady st cb errorCb =
      ({ st with readyCbs := st.readyCbs ++ [cb],
                 readyErrorCbs := st.readyErrorCbs ++ errorCb.toList }, [])) := by
  constructor <;> intro h <;> simp [onReady, h]

def stReady : HistState :=
  { current := START, pending := none, ready := true,
    readyCbs := [], readyErrorCbs := [], errorCbs := [], cb := none }

theorem c10_onReady_after_ready_witness :
    onReady stReady 3 (some 4) = (stReady, [Event.readyCb 3 none]) :=
  (c10_onReady_after_ready stReady 3 (some 4)).1 rfl

/-! The resolution handler and the no-op short-circuit. -/

/-- C4: for every value `v` a guard passes to its continuation, when the
transition is still pending: `false` or an error value re-synchronises the
address bar to the current route (forced push) and aborts with `v`; a string,
or an object whose `path` or `name` is a string, aborts with no error and then
starts a new navigation to `v`, in replace-mode exactly when the object has a
truthy `replace` flag and push-mode otherwise; any other value proceeds to the
next queue item carrying `v` unchanged.  The final conjunct shows the iterator
defers to exactly this handler after invoking the guard. -/
theorem c4_resolution_handler
    (onAbort : Option NextVal → HistState → HistState × List Event)
    (env : GuardEnv) (asyncBeh : AsyncBeh) (route current : Route)
    (item : QItem) (st st' : HistState) (v : NextVal) :
    ((v = NextVal.vFalse ∨ isErrVal v = true) →
      applyNextVal onAbort item st' v =
        .stop (doAbort onAbort st' (some v)).1
          (Event.ensureURL true :: (doAbort onAbort st' (some v)).2)) ∧
    (¬(v = NextVal.vFalse ∨ isErrVal v = true) → isRedirectVal v = true →
      applyNextVal onAbort item st' v =
        .stop (doAbort onAbort st' none).1
          ((doAbort onAbort st' none).2 ++
            [if redirectReplace v then Event.replaceLoc v else Event.pushLoc v])) ∧
    (¬(v = NextVal.vFalse ∨ isErrVal v = true) → ¬isRedirectVal v = true →
      applyNextVal onAbort item st' v = .next v st' [] (postEnterEvs item v)) ∧
    (st.pending = some route → itemAction env asyncBeh item st = (.resolve v, st') →
      iteratorStep env asyncBeh onAbort route current item st =
        match applyNextVal onAbort item st' v with
        | .stop s evs => .stop s (Event.guardCalled item :: evs)
        | .next v2 s evsB evsA => .next v2 s (Event.guardCalled item :: evsB) evsA) := by
  refine ⟨?_, ?_, ?_, ?_⟩
  · intro h
    simp only [applyNextVal, if_pos h]
  · intro h hr
    simp only [applyNextVal, if_neg h, if_pos hr]
  · intro h hr
    simp only [applyNextVal, if_neg h, if_neg hr]
  · intro hp henv
    simp only [iteratorStep, hp, ne_eq, not_true_eq_false, if_false, reduceIte, henv]

def envProceed : GuardEnv := fun _ s => (GuardAction.resolve NextVal.vUndefined, s)

def asyncProceed : AsyncBeh := fun _ s => (GuardAction.resolve NextVal.vUndefined, s)

theorem c4_resolution_handler_witness :
    applyNextVal onAbortT (QItem.guard 1) stReady (NextVal.vString "/login") =
      .stop (doAbort onAbortT stReady none).1
        ((doAbort onAbortT stReady none).2 ++
          [if redirectReplace (NextVal.vString "/login") then
            Event.replaceLoc (NextVal.vString "/login")
          else Event.pushLoc (NextVal.vString "/login")]) := by
  have h := c4_resolution_handler onAbortT envProceed asyncProceed START START
    (QItem.guard 1) stReady stReady (NextVal.vString "/login")
  exact h.2.1 (by decide) (by decide)

/-- The current route of the short-circuit scenario. -/
def route0 : Route :=
  { rid := 3, path := "/", hash := "", query := [], params := [], matched := [] }

def st0 : HistState :=
  { current := route0, pending := none, ready := false,
    readyCbs := [11], readyErrorCbs := [12], errorCbs := [13], cb := some 9 }

/-- C5: when the candidate route is structurally equal to the committed
current route and the matched counts agree, `transitionTo` synchronises the
address bar, runs no guard, notifies no global error listener, leaves the
whole state (including `ready` and `pending`) unchanged, and invokes only the
per-call abort callback, with no error value. -/
theorem c5_duplicate_shortcircuit (env : GuardEnv) (asyncBeh : AsyncBeh)
    (router : Router) (st : HistState) (route : Route)
    (hsame : isSameRoute route st.current = true)
    (hlen : route.matched.length = st.current.matched.length) :
    transitionToRoute env asyncBeh router st route =
      (st, [Event.ensureURL false, Event.abortCb none]) := by
  unfold transitionToRoute confirmTransition
  rw [if_pos (by simp [hsame, hlen])]
  simp [doAbort, onAbortT, errTruthy]

theorem c5_duplicate_shortcircuit_witness :
    transitionToRoute envProceed asyncProceed
        { beforeHooks := [1], resolveHooks := [], afterHooks := [], hasApp := false }
        st0 route0 =
      (st0, [Event.ensureURL false, Event.abortCb none]) :=
  c5_duplicate_shortcircuit envProceed asyncProceed
    { beforeHooks := [1], resolveHooks := [], afterHooks := [], hasApp := false }
    st0 route0 (by decide) (by decide)

/-! Supersession: once `pending` no longer holds a transition's route, every
remaining step of that transition's pipeline aborts. -/

theorem doAbort_onAbortT_none (st : HistState) :
    doAbort onAbortT st none = (st, [Event.abortCb none]) := by
  simp [doAbort, onAbortT, errTruthy]

theorem iteratorStep_stale (env : GuardEnv) (asyncBeh : AsyncBeh)
    (route current : Route) (item : QItem) (st : HistState)
    (h : st.pending ≠ some route) :
    iteratorStep env asyncBeh onAbortT route current item st =
      .stop st [Event.abortCb none] := by
  simp only [iteratorStep, if_pos h, doAbort_onAbortT_none]

theorem runQueueGo_stale (env : GuardEnv) (asyncBeh : AsyncBeh)
    (route current : Route) (final : HistState → HistState × List Event)
    (hfinal : ∀ st : HistState, st.pending ≠ some route →
      final st = (st, [Event.abortCb none])) :
    ∀ (queue : List (Option QItem)) (st : HistState), st.pending ≠ some route →
      runQueueGo (iteratorStep env asyncBeh onAbortT route current) final queue st =
        (st, [Event.abortCb none]) := by
  intro queue
  induction queue with
  | nil => intro st h; exact hfinal st h
  | cons hd rest ih =>
    intro st h
    cases hd with
    | none => simpa [runQueueGo] using ih st h
    | some item =>
      simp only [runQueueGo, iteratorStep_stale env asyncBeh route current item st h]

theorem stage2Final_stale (router : Router) (route : Route)
    (onComplete : HistState → HistState × List Event) (st : HistState)
    (h : st.pending ≠ some route) :
    stage2Final router route onComplete onAbortT st = (st, [Event.abortCb none]) := by
  simp only [stage2Final, if_pos h, doAbort_onAbortT_none]

theorem stage1Final_stale (env : GuardEnv) (asyncBeh : AsyncBeh) (router : Router)
    (route current : Route) (activated : List RouteRecord)
    (onComplete : HistState → HistState × List Event) (st : HistState)
    (h : st.pending ≠ some route) :
    stage1Final env asyncBeh router route current activated onComplete onAbortT st =
      (st, [Event.abortCb none]) := by
  unfold stage1Final
  exact runQueueGo_stale env asyncBeh route current _
    (fun st' h' => stage2Final_stale router route onComplete st' h') _ st h

/-- C2: once a second transition has reassigned `pending` away from transition
A's route, no remaining step of A's pipeline can commit: the iterator aborts
at the very next guard boundary without invoking the guard; any remainder of
either queue, run with either stage's completion callback, returns the state
untouched with only the empty abort (so `current` is never mutated and A's
`onComplete` — here an arbitrary continuation — is never invoked); and the
completion callback itself re-checks `pending` and aborts instead of clearing
it and committing. -/
theorem c2_stale_transition_aborts (env : GuardEnv) (asyncBeh : AsyncBeh)
    (router : Router) (routeA current : Route) (activated : List RouteRecord)
    (onComplete : HistState → HistState × List Event)
    (queue : List (Option QItem)) (st : HistState)
    (h : st.pending ≠ some routeA) :
    (∀ item, iteratorStep env asyncBeh onAbortT routeA current item st =
      .stop st [Event.abortCb none]) ∧
    runQueueGo (iteratorStep env asyncBeh onAbortT routeA current)
      (stage1Final env asyncBeh router routeA current activated onComplete onAbortT)
      queue st = (st, [Event.abortCb none]) ∧
    runQueueGo (iteratorStep env asyncBeh onAbortT routeA current)
      (stage2Final router routeA onComplete onAbortT) queue st =
        (st, [Event.abortCb none]) ∧
    stage2Final router routeA onComplete onAbortT st = (st, [Event.abortCb none]) := by
  refine ⟨fun item => iteratorStep_stale env asyncBeh routeA current item st h,
    runQueueGo_stale env asyncBeh routeA current _
      (fun st' h' => stage1Final_stale env asyncBeh router routeA current activated
        onComplete st' h') queue st h,
    runQueueGo_stale env asyncBeh routeA current _
      (fun st' h' => stage2Final_stale router routeA onComplete st' h') queue st h,
    stage2Final_stale router routeA onComplete st h⟩

theorem c2_stale_transition_aborts_witness :
    st0.pending ≠ some START ∧
    runQueueGo (iteratorStep envProceed asyncProceed onAbortT START route0)
        (stage1Final envProceed asyncProceed
          { beforeHooks := [], resolveHooks := [], afterHooks := [], hasApp := true }
          START route0 [] (onCompleteT
            { beforeHooks := [], resolveHooks := [], afterHooks := [], hasApp := true }
            START) onAbortT)
        [some (QItem.guard 1)] st0 = (st0, [Event.abortCb none]) := by
  have h := c2_stale_transition_aborts envProceed asyncProceed
    { beforeHooks := [], resolveHooks := [], afterHooks := [], hasApp := true }
    START route0 [] (onCompleteT
      { beforeHooks := [], resolveHooks := [], afterHooks := [], hasApp := true } START)
    [some (QItem.guard 1)] st0 (by decide)
  exact ⟨by decide, h.2.1⟩

/-! Outcome characterisation of a full `transitionTo` run.  Guards are taken
pure here (they resolve without mutating the controller state): this isolates
what the controller's own code does to `current`, `pending` and `ready`. -/

/-- State effect of the abort continuation of `transitionTo`: `ready` flips
exactly when the reason is truthy and this is the first resolution. -/
def abortFlip (err : Option NextVal) (s : HistState) : HistState :=
  if errTruthy err = true ∧ s.ready = false then { s with ready := true } else s

/-- Events emitted by `abort` under `transitionTo`'s abort continuation. -/
def doAbortEvsT (st : HistState) (err : Option NextVal) : List Event :=
  (match err with
   | some (NextVal.vError e) =>
       if st.errorCbs = [] then [Event.warnUncaught e]
       else st.errorCbs.map (fun c => Event.errorCb c e)
   | _ => []) ++
    (Event.abortCb err ::
      (if errTruthy err = true ∧ st.ready = false then
        st.readyErrorCbs.map (fun c => Event.readyErrCb c err)
      else []))

theorem doAbort_onAbortT_eq (st : HistState) (err : Option NextVal) :
    doAbort onAbortT st err = (abortFlip err st, doAbortEvsT st err) := by
  by_cases h : errTruthy err = true ∧ st.ready = false <;>
    simp [doAbort, onAbortT, abortFlip, doAbortEvsT, h]

/-- Commit events (`completeCb`). -/
def isCompleteEv : Event → Bool
  | .completeCb _ => true
  | _ => false

/-- Events a still-running pipeline may emit before its outcome: guard
invocations and post-enter registrations. -/
def plainEv : Event → Bool
  | .guardCalled _ => true
  | .postEnterQueued _ _ _ => true
  | _ => false

theorem plainEv_noComplete (e : Event) (h : plainEv e = true) :
    isCompleteEv e = false := by
  cases e <;> simp_all [plainEv, isCompleteEv]

theorem doAbortEvsT_noComplete (st : HistState) (err : Option NextVal) :
    ∀ e ∈ doAbortEvsT st err, isCompleteEv e = false := by
  intro e he
  unfold doAbortEvsT at he
  rcases List.mem_append.1 he with h | h
  · rcases err with _ | v
    · simp at h
    · cases v <;> simp at h
      case vError ev =>
        by_cases hc : st.errorCbs = [] <;> simp [hc] at h
        · simp [h, isCompleteEv]
        · obtain ⟨c, _, rfl⟩ := h
          rfl
  · rcases List.mem_cons.1 h with rfl | h
    · rfl
    · by_cases hc : errTruthy err = true ∧ st.ready = false <;> simp [hc] at h
      obtain ⟨c, _, rfl⟩ := h
      rfl

theorem iteratorStep_pure_cases (env : GuardEnv) (asyncBeh : AsyncBeh)
    (route current : Route) (item : QItem) (st : HistState)
    (Hpure : ∀ g s, (env g s).2 = s) (HpureA : ∀ rs s, (asyncBeh rs s).2 = s)
    (hpend : st.pending = some route) :
    (∃ v evsA, iteratorStep env asyncBeh onAbortT route current item st =
        .next v st [Event.guardCalled item] evsA ∧ ∀ e ∈ evsA, plainEv e = true) ∨
    (∃ err evs, iteratorStep env asyncBeh onAbortT route current item st =
        .stop (abortFlip err st) evs ∧
      (∀ e ∈ doAbortEvsT st err, e ∈ evs) ∧
      (∀ e ∈ evs, isCompleteEv e = false)) := by
  have h2 : (itemAction env asyncBeh item st).2 = st := by
    cases item <;> simp [itemAction, Hpure, HpureA]
  have hne : ¬ st.pending ≠ some route := by simp [hpend]
  unfold iteratorStep
  rw [if_neg hne]
  cases hv : (itemAction env asyncBeh item st).1 with
  | throwErr e =>
    right
    refine ⟨some (NextVal.vError e),
      Event.guardCalled item :: doAbortEvsT st (some (NextVal.vError e)), ?_, ?_, ?_⟩
    · simp only [hv, h2, doAbort_onAbortT_eq]
    · intro e' he'
      exact List.mem_cons_of_mem _ he'
    · intro e' he'
      rcases List.mem_cons.1 he' with rfl | h
      · rfl
      · exact doAbortEvsT_noComplete st _ e' h
  | resolve v =>
    by_cases h1 : v = NextVal.vFalse ∨ isErrVal v = true
    · right
      refine ⟨some v,
        Event.guardCalled item :: Event.ensureURL true :: doAbortEvsT st (some v), ?_, ?_, ?_⟩
      · simp only [hv, h2, applyNextVal, if_pos h1, doAbort_onAbortT_eq]
      · intro e he
        exact List.mem_cons_of_mem _ (List.mem_cons_of_mem _ he)
      · intro e he
        rcases List.mem_cons.1 he with rfl | he
        · rfl
        rcases List.mem_cons.1 he with rfl | he
        · rfl
        · exact doAbortEvsT_noComplete st _ e he
    · by_cases hr : isRedirectVal v = true
      · right
        refine ⟨none, Event.guardCalled item ::
          (doAbortEvsT st none ++
            [if redirectReplace v then Event.replaceLoc v else Event.pushLoc v]), ?_, ?_, ?_⟩
        · simp only [hv, h2, applyNextVal, if_neg h1, if_pos hr, doAbort_onAbortT_eq]
        · intro e he
          exact List.mem_cons_of_mem _ (List.mem_append_left _ he)
        · intro e he
          rcases List.mem_cons.1 he with rfl | he
          · rfl
          rcases List.mem_append.1 he with he | he
          · exact doAbortEvsT_noComplete st _ e he
          · simp only [List.mem_singleton] at he
            subst he
            split <;> rfl
      · left
        refine ⟨v, postEnterEvs item v, ?_, ?_⟩
        · simp only [hv, h2, applyNextVal, if_neg h1, if_neg hr]
        · intro e he
          cases item <;> cases v <;> simp_all [postEnterEvs, plainEv]

theorem runQueueGo_pure (env : GuardEnv) (asyncBeh : AsyncBeh)
    (route current : Route) (final : HistState → HistState × List Event)
    (Hpure : ∀ g s, (env g s).2 = s) (HpureA : ∀ rs s, (asyncBeh rs s).2 = s) :
    ∀ (queue : List (Option QItem)) (st : HistState), st.pending = some route →
    (((runQueueGo (iteratorStep env asyncBeh onAbortT route current) final queue st).1 =
        (final st).1 ∧
      (∀ e ∈ (final st).2,
        e ∈ (runQueueGo (iteratorStep env asyncBeh onAbortT route current) final queue st).2) ∧
      (∀ e ∈ (runQueueGo (iteratorStep env asyncBeh onAbortT route current) final queue st).2,
        e ∈ (final st).2 ∨ plainEv e = true)) ∨
     (∃ err,
      (runQueueGo (iteratorStep env asyncBeh onAbortT route current) final queue st).1 =
        abortFlip err st ∧
      (∀ e ∈ doAbortEvsT st err,
        e ∈ (runQueueGo (iteratorStep env asyncBeh onAbortT route current) final queue st).2) ∧
      (∀ e ∈ (runQueueGo (iteratorStep env asyncBeh onAbortT route current) final queue st).2,
        isCompleteEv e = false))) := by
  intro queue
  induction queue with
  | nil =>
    intro st h
    left
    exact ⟨rfl, fun e he => he, fun e he => Or.inl he⟩
  | cons hd rest ih =>
    intro st h
    cases hd with
    | none => simpa [runQueueGo] using ih st h
    | some item =>
      rcases iteratorStep_pure_cases env asyncBeh route current item st Hpure HpureA h with
        ⟨v, evsA, hstep, hplainA⟩ | ⟨err, evs, hstep, hsub, hnc⟩
      · have hrw : runQueueGo (iteratorStep env asyncBeh onAbortT route current) final
            (some item :: rest) st =
            ((runQueueGo (iteratorStep env asyncBeh onAbortT route current) final rest st).1,
              [Event.guardCalled item] ++
                (runQueueGo (iteratorStep env asyncBeh onAbortT route current) final rest st).2 ++
                evsA) := by
          simp [runQueueGo, hstep]
        rcases ih st h with ⟨h1, h2, h3⟩ | ⟨err, h1, h2, h3⟩
        · left
          rw [hrw]
          refine ⟨h1, ?_, ?_⟩
          · intro e he
            simp only [List.mem_append, List.mem_singleton]
            exact Or.inl (Or.inr (h2 e he))
          · intro e he
            simp only [List.mem_append, List.mem_singleton] at he
            rcases he with (rfl | he) | he
            · exact Or.inr rfl
            · exact h3 e he
            · exact Or.inr (hplainA e he)
        · right
          rw [hrw]
          refine ⟨err, h1, ?_, ?_⟩
          · intro e he
            simp only [List.mem_append, List.mem_singleton]
            exact Or.inl (Or.inr (h2 e he))
          · intro e he
            simp only [List.mem_append, List.mem_singleton] at he
            rcases he with (rfl | he) | he
            · rfl
            · exact h3 e he
            · exact plainEv_noComplete e (hplainA e he)
      · right
        have hrw : runQueueGo (iteratorStep env asyncBeh onAbortT route current) final
            (some item :: rest) st = (abortFlip err st, evs) := by
          simp [runQueueGo, hstep]
        rw [hrw]
        exact ⟨err, rfl, hsub, hnc⟩

/-- State after a successful commit: `pending` cleared, `current` replaced,
`ready` set on the first resolution. -/
def commitState (st : HistState) (route : Route) : HistState :=
  if st.ready then { st with pending := none, current := route }
  else { st with pending := none, current := route, ready := true }

/-- Events of a successful commit, in order: listener callback, after hooks
(registration order, with previous route), per-call completion, URL
synchronisation, first-time ready flush, next-tick scheduling. -/
def commitEvs (router : Router) (st : HistState) (route : Route) : List Event :=
  (match st.cb with
   | some c => [Event.listenCb c route]
   | none => []) ++
    router.afterHooks.map (fun h => Event.afterHook h route st.current) ++
    [Event.completeCb route, Event.ensureURL false] ++
    (if st.ready then [] else st.readyCbs.map (fun c => Event.readyCb c (some route))) ++
    (if router.hasApp then [Event.nextTickScheduled] else [])

theorem stage2Final_commit (router : Router) (route : Route) (st : HistState)
    (hpend : st.pending = some route) :
    stage2Final router route (onCompleteT router route) onAbortT st =
      (commitState st route, commitEvs router st route) := by
  have hne : ¬ st.pending ≠ some route := by simp [hpend]
  by_cases hr : st.ready <;>
    simp [stage2Final, hne, onCompleteT, updateRoute, commitState, commitEvs, hr,
      List.append_assoc]

theorem transitionTo_shortcircuit (env : GuardEnv) (asyncBeh : AsyncBeh)
    (router : Router) (st : HistState) (route : Route)
    (h : (isSameRoute route st.current &&
      route.matched.length == st.current.matched.length) = true) :
    transitionToRoute env asyncBeh router st route =
      (st, [Event.ensureURL false, Event.abortCb none]) := by
  unfold transitionToRoute confirmTransition
  rw [if_pos h]
  simp [doAbort, onAbortT, errTruthy]

/-- Outcome of a non-short-circuited `transitionTo` run with pure guards:
either it commits — final state `commitState`, with every commit event
observable — or it aborts with some reason `err` — final state the initial
state with `pending := some route` adjusted only by the first-resolution
ready flip, with every abort event observable and no completion event at
all. -/
theorem transitionTo_outcomes (env : GuardEnv) (asyncBeh : AsyncBeh)
    (router : Router) (st : HistState) (route : Route)
    (Hpure : ∀ g s, (env g s).2 = s) (HpureA : ∀ rs s, (asyncBeh rs s).2 = s)
    (hshort : (isSameRoute route st.current &&
      route.matched.length == st.current.matched.length) = false) :
    ((transitionToRoute env asyncBeh router st route).1 =
        commitState { st with pending := some route } route ∧
      ∀ e ∈ commitEvs router { st with pending := some route } route,
        e ∈ (transitionToRoute env asyncBeh router st route).2) ∨
    (∃ err, (transitionToRoute env asyncBeh router st route).1 =
        abortFlip err { st with pending := some route } ∧
      (∀ e ∈ doAbortEvsT { st with pending := some route } err,
        e ∈ (transitionToRoute env asyncBeh router st route).2) ∧
      (∀ e ∈ (transitionToRoute env asyncBeh router st route).2,
        isCompleteEv e = false)) := by
  have hred : transitionToRoute env asyncBeh router st route =
      runQueueGo (iteratorStep env asyncBeh onAbortT route st.current)
        (stage1Final env asyncBeh router route st.current
          (resolveQueue st.current.matched route.matched).activated
          (onCompleteT router route) onAbortT)
        (confirmQueue router (resolveQueue st.current.matched route.matched))
        { st with pending := some route } := by
    unfold transitionToRoute confirmTransition
    rw [if_neg (by simp [hshort])]
  set st1 : HistState := { st with pending := some route } with hst1
  have hpend1 : st1.pending = some route := rfl
  -- characterise the second pipeline, i.e. `stage1Final` at `st1`
  have hinner := runQueueGo_pure env asyncBeh route st.current
    (stage2Final router route (onCompleteT router route) onAbortT) Hpure HpureA
    (extractEnterGuards (resolveQueue st.current.matched route.matched).activated
      ++ router.resolveHooks.map (fun g => some (QItem.guard g))) st1 hpend1
  have hstage1 : stage1Final env asyncBeh router route st.current
      (resolveQueue st.current.matched route.matched).activated
      (onCompleteT router route) onAbortT st1 =
      runQueueGo (iteratorStep env asyncBeh onAbortT route st.current)
        (stage2Final router route (onCompleteT router route) onAbortT)
        (extractEnterGuards (resolveQueue st.current.matched route.matched).activated
          ++ router.resolveHooks.map (fun g => some (QItem.guard g))) st1 := rfl
  have houter := runQueueGo_pure env asyncBeh route st.current
    (stage1Final env asyncBeh router route st.current
      (resolveQueue st.current.matched route.matched).activated
      (onCompleteT router route) onAbortT) Hpure HpureA
    (confirmQueue router (resolveQueue st.current.matched route.matched)) st1 hpend1
  rw [← hred] at houter
  rw [stage2Final_commit router route st1 hpend1] at hinner
  rw [hstage1] at houter
  rcases houter with ⟨ho1, ho2, ho3⟩ | ⟨err, ho1, ho2, ho3⟩
  · rcases hinner with ⟨hi1, hi2, hi3⟩ | ⟨err, hi1, hi2, hi3⟩
    · left
      refine ⟨by rw [ho1, hi1], ?_⟩
      intro e he
      exact ho2 e (hi2 e he)
    · right
      refine ⟨err, by rw [ho1, hi1], ?_, ?_⟩
      · intro e he
        exact ho2 e (hi2 e he)
      · intro e he
        rcases ho3 e he with hm | hp
        · exact hi3 e hm
        · exact plainEv_noComplete e hp
  · right
    exact ⟨err, ho1, ho2, ho3⟩

/-! Concrete navigation scenario: one global before hook, one activated
record, no shared ancestry. -/

def rec1 : RouteRecord := { rid := 4, components := [], instances := [], beforeEnter := none }

def routeX : Route :=
  { rid := 5, path := "/x", hash := "", query := [], params := [], matched := [rec1] }

def routerB : Router :=
  { beforeHooks := [21], resolveHooks := [], afterHooks := [], hasApp := false }

def envFalse : GuardEnv := fun _ s => (GuardAction.resolve NextVal.vFalse, s)

/-- C6 counterexample: navigating `st0` (pending `none`) to `routeX` while the
global before hook resolves `false` makes the transition abort (the abort
callback fires with `false`), yet the final `pending` still holds the aborted
candidate route — `abort` (`base.js:105-115`) never clears `pending`; only the
commit path (`base.js:213`) does. -/
theorem c6_counterexample :
    (transitionToRoute envFalse asyncProceed routerB st0 routeX).1.pending = some routeX ∧
    (transitionToRoute envFalse asyncProceed routerB st0 routeX).2 =
      [Event.guardCalled (QItem.guard 21), Event.ensureURL true,
        Event.abortCb (some NextVal.vFalse)] := by
  decide

/-- C6 amended: `pending` is set to the candidate route when the guard
pipeline starts (structurally-equal no-op navigations are short-circuited
before that and leave `pending` untouched) and is cleared exactly when the
transition commits; an aborted transition leaves `pending` still referencing
the aborted candidate route until a later transition overwrites it. -/
theorem c6_pending_amended (env : GuardEnv) (asyncBeh : AsyncBeh)
    (router : Router) (st : HistState) (route : Route)
    (Hpure : ∀ g s, (env g s).2 = s) (HpureA : ∀ rs s, (asyncBeh rs s).2 = s) :
    ((isSameRoute route st.current &&
        route.matched.length == st.current.matched.length) = true →
      (transitionToRoute env asyncBeh router st route).1.pending = st.pending) ∧
    ((isSameRoute route st.current &&
        route.matched.length == st.current.matched.length) = false →
      (Event.completeCb route ∈ (transitionToRoute env asyncBeh router st route).2 →
        (transitionToRoute env asyncBeh router st route).1.pending = none) ∧
      (Event.completeCb route ∉ (transitionToRoute env asyncBeh router st route).2 →
        (transitionToRoute env asyncBeh router st route).1.pending = some route)) := by
  constructor
  · intro h
    rw [transitionTo_shortcircuit env asyncBeh router st route h]
  · intro hshort
    rcases transitionTo_outcomes env asyncBeh router st route Hpure HpureA hshort with
      ⟨h1, h2⟩ | ⟨err, h1, h2, h3⟩
    · constructor
      · intro _
        rw [h1]
        by_cases hr : st.ready <;> simp [commitState, hr]
      · intro hnot
        exact absurd (h2 _ (by simp [commitEvs])) hnot
    · constructor
      · intro hmem
        have := h3 _ hmem
        simp [isCompleteEv] at this
      · intro _
        rw [h1]
        unfold abortFlip
        split <;> rfl

theorem c6_pending_amended_witness :
    (transitionToRoute envProceed asyncProceed routerB st0 routeX).1.pending = none := by
  have h := c6_pending_amended envProceed asyncProceed routerB st0 routeX
    (fun _ _ => rfl) (fun _ _ => rfl)
  exact (h.2 (by decide)).1 (by decide)

/-- C7 counterexample: the very first resolution of this controller is an
abort with no error value (a no-op duplicated navigation), and `ready` stays
false afterwards — the flip is not synchronized with the first resolution
regardless of outcome, because `transitionTo` only flips `ready` on a failure
when the reason is truthy (`base.js:95`). -/
theorem c7_counterexample :
    st0.ready = false ∧
    (transitionToRoute envProceed asyncProceed routerB st0 route0).2 =
      [Event.ensureURL false, Event.abortCb none] ∧
    (transitionToRoute envProceed asyncProceed routerB st0 route0).1.ready = false := by
  decide

/-- C7 amended: `ready` flips from false to true at most once, at the first
resolution that either commits or aborts with a truthy reason; an abort whose
reason is falsy (no error, or `false`) leaves `ready` false.  `readyCbs` are
flushed when the flip comes from a commit, `readyErrorCbs` when it comes from
an error failure, and an `onReady` registration made once `ready` is true
fires immediately. -/
theorem c7_ready_amended (env : GuardEnv) (asyncBeh : AsyncBeh)
    (router : Router) (st : HistState) (route : Route) (cb : Nat) (ecb : Option Nat)
    (Hpure : ∀ g s, (env g s).2 = s) (HpureA : ∀ rs s, (asyncBeh rs s).2 = s) :
    (st.ready = true → (transitionToRoute env asyncBeh router st route).1.ready = true) ∧
    ((isSameRoute route st.current &&
        route.matched.length == st.current.matched.length) = false →
      (Event.completeCb route ∈ (transitionToRoute env asyncBeh router st route).2 →
        (transitionToRoute env asyncBeh router st route).1.ready = true ∧
        (st.ready = false → ∀ c ∈ st.readyCbs,
          Event.readyCb c (some route) ∈ (transitionToRoute env asyncBeh router st route).2)) ∧
      (Event.completeCb route ∉ (transitionToRoute env asyncBeh router st route).2 →
        ∃ err, Event.abortCb err ∈ (transitionToRoute env asyncBeh router st route).2 ∧
          (transitionToRoute env asyncBeh router st route).1.ready =
            (if errTruthy err = true ∧ st.ready = false then true else st.ready) ∧
          (errTruthy err = true → st.ready = false → ∀ c ∈ st.readyErrorCbs,
            Event.readyErrCb c err ∈ (transitionToRoute env asyncBeh router st route).2))) ∧
    (st.ready = true → onReady st cb ecb = (st, [Event.readyCb cb none])) := by
  refine ⟨?_, ?_, ?_⟩
  · intro hr
    rcases Bool.eq_false_or_eq_true
      (isSameRoute route st.current &&
        route.matched.length == st.current.matched.length) with hb | hb
    · rw [transitionTo_shortcircuit env asyncBeh router st route hb]
      exact hr
    · rcases transitionTo_outcomes env asyncBeh router st route Hpure HpureA hb with
        ⟨h1, _⟩ | ⟨err, h1, _, _⟩
      · rw [h1]
        simp [commitState, hr]
      · rw [h1]
        unfold abortFlip
        split <;> simp_all

  · intro hshort
    rcases transitionTo_outcomes env asyncBeh router st route Hpure HpureA hshort with
      ⟨h1, h2⟩ | ⟨err, h1, h2, h3⟩
    · constructor
      · intro _
        constructor
        · rw [h1]
          by_cases hr : st.ready <;> simp [commitState, hr]
        · intro hr c hc
          refine h2 _ ?_
          unfold commitEvs
          refine List.mem_append_left _ (List.mem_append_right _ ?_)
          have hcond : ¬ (({ st with pending := some route } : HistState).ready = true) := by
            simp [hr]
          rw [if_neg hcond]
          exact List.mem_map.2 ⟨c, hc, rfl⟩
      · intro hnot
        exact absurd (h2 _ (by simp [commitEvs])) hnot
    · constructor
      · intro hmem
        have := h3 _ hmem
        simp [isCompleteEv] at this
      · intro _
        refine ⟨err, h2 _ (by simp [doAbortEvsT]), ?_, ?_⟩
        · rw [h1]
          unfold abortFlip
          split <;> simp_all
        · intro he hr c hc
          refine h2 _ ?_
          unfold doAbortEvsT
          refine List.mem_append_right _ (List.mem_cons_of_mem _ ?_)
          have hcond : errTruthy err = true ∧
              (({ st with pending := some route } : HistState).ready = false) := ⟨he, hr⟩
          rw [if_pos hcond]
          exact List.mem_map.2 ⟨c, hc, rfl⟩
  · intro hr
    simp [onReady, hr]

theorem c7_ready_amended_witness :
    (transitionToRoute envProceed asyncProceed routerB st0 routeX).1.ready = true ∧
    Event.readyCb 11 (some routeX) ∈
      (transitionToRoute envProceed asyncProceed routerB st0 routeX).2 := by
  have h := c7_ready_amended envProceed asyncProceed routerB st0 routeX 3 none
    (fun _ _ => rfl) (fun _ _ => rfl)
  have hc := (h.2.1 (by decide)).1 (by decide)
  exact ⟨hc.1, hc.2 (by decide) 11 (by decide)⟩

/-- C8: the commit step is the only place `current` is reassigned.
`updateRoute` replaces `current` and emits, in order, the single listener
callback registered via `listen` and every global after hook with the new and
previous routes in registration order; a short-circuited or aborted
`transitionTo` leaves `current` untouched, and a committed one sets it to the
confirmed route.  Guards run strictly sequentially in this model, so none
observes a partially updated `current`. -/
theorem c8_commit_only_mutation (env : GuardEnv) (asyncBeh : AsyncBeh)
    (router : Router) (st : HistState) (route : Route)
    (Hpure : ∀ g s, (env g s).2 = s) (HpureA : ∀ rs s, (asyncBeh rs s).2 = s) :
    (∀ (st' : HistState) (r : Route), updateRoute router st' r =
      ({ st' with current := r },
        (match st'.cb with
         | some c => [Event.listenCb c r]
         | none => []) ++
          router.afterHooks.map (fun h => Event.afterHook h r st'.current))) ∧
    ((isSameRoute route st.current &&
        route.matched.length == st.current.matched.length) = true →
      (transitionToRoute env asyncBeh router st route).1.current = st.current) ∧
    ((isSameRoute route st.current &&
        route.matched.length == st.current.matched.length) = false →
      (Event.completeCb route ∈ (transitionToRoute env asyncBeh router st route).2 →
        (transitionToRoute env asyncBeh router st route).1.current = route) ∧
      (Event.completeCb route ∉ (transitionToRoute env asyncBeh router st route).2 →
        (transitionToRoute env asyncBeh router st route).1.current = st.current)) := by
  refine ⟨fun st' r => rfl, ?_, ?_⟩
  · intro h
    rw [transitionTo_shortcircuit env asyncBeh router st route h]
  · intro hshort
    rcases transitionTo_outcomes env asyncBeh router st route Hpure HpureA hshort with
      ⟨h1, h2⟩ | ⟨err, h1, h2, h3⟩
    · constructor
      · intro _
        rw [h1]
        by_cases hr : st.ready <;> simp [commitState, hr]
      · intro hnot
        exact absurd (h2 _ (by simp [commitEvs])) hnot
    · constructor
      · intro hmem
        have := h3 _ hmem
        simp [isCompleteEv] at this
      · intro _
        rw [h1]
        unfold abortFlip
        split <;> rfl

theorem c8_commit_only_mutation_witness :
    (transitionToRoute envProceed asyncProceed routerB st0 routeX).1.current = routeX ∧
    (transitionToRoute envFalse asyncProceed routerB st0 routeX).1.current = st0.current := by
  have h := c8_commit_only_mutation envProceed asyncProceed routerB st0 routeX
    (fun _ _ => rfl) (fun _ _ => rfl)
  have h' := c8_commit_only_mutation envFalse asyncProceed routerB st0 routeX
    (fun _ _ => rfl) (fun _ _ => rfl)
  exact ⟨(h.2.2 (by decide)).1 (by decide), (h'.2.2 (by decide)).2 (by decide)⟩

/-! Guard pipeline construction and ordering. -/

def cdLeave (g : Nat) : ComponentDef :=
  { beforeRouteLeave := [g], beforeRouteUpdate := [], beforeRouteEnter := [] }

def cdUpdate (g : Nat) : ComponentDef :=
  { beforeRouteLeave := [], beforeRouteUpdate := [g], beforeRouteEnter := [] }

def cdEnter (g : Nat) : ComponentDef :=
  { beforeRouteLeave := [], beforeRouteUpdate := [], beforeRouteEnter := [g] }

/-- Shared ancestor record, carrying an update hook. -/
def recC0 : RouteRecord :=
  { rid := 30, components := [("d", cdUpdate 31)], instances := [("d", 300)],
    beforeEnter := none }

/-- Deactivated parent record with leave guard 41. -/
def recD2 : RouteRecord :=
  { rid := 40, components := [("d", cdLeave 41)], instances := [("d", 400)],
    beforeEnter := none }

/-- Deactivated child record with leave guard 51. -/
def recD1 : RouteRecord :=
  { rid := 50, components := [("d", cdLeave 51)], instances := [("d", 500)],
    beforeEnter := none }

/-- Activated record with enter guard 61 and `beforeEnter` 62. -/
def recN1 : RouteRecord :=
  { rid := 60, components := [("d", cdEnter 61)], instances := [],
    beforeEnter := some 62 }

def routeC : Route :=
  { rid := 7, path := "/a/b/c", hash := "", query := [], params := [],
    matched := [recC0, recD2, recD1] }

def routeN : Route :=
  { rid := 8, path := "/a/n", hash := "", query := [], params := [],
    matched := [recC0, recN1] }

def routerC : Router :=
  { beforeHooks := [70], resolveHooks := [71], afterHooks := [72], hasApp := true }

def stC : HistState :=
  { current := routeC, pending := none, ready := false,
    readyCbs := [80], readyErrorCbs := [], errorCbs := [], cb := some 81 }

/-- C1: a non-short-circuited `confirmTransition` runs exactly the queue
`confirmQueue`, which is the concatenation, in this order, of: the leave
guards of the deactivated records in reverse order, the global before hooks
in registration order, the update guards of the updated records in forward
order, the `beforeEnter` guards taken directly off the activated records in
forward order, and the single async-component-resolution step.  The third
conjunct exhibits the reversal performed by `extractLeaveGuards`; the fourth
shows it on deactivated records `[parent, child]` (matched order), whose leave
guards come out child-first; the last conjunct runs the full scenario and
shows every leave guard is invoked before the global before hook, which runs
before the update, `beforeEnter`, async, enter and resolve steps. -/
theorem c1_pipeline_order :
    (∀ (env : GuardEnv) (asyncBeh : AsyncBeh) (router : Router) (st : HistState)
        (route : Route) (onComplete : HistState → HistState × List Event)
        (onAbort : Option NextVal → HistState → HistState × List Event),
      (isSameRoute route st.current &&
        route.matched.length == st.current.matched.length) = false →
      confirmTransition env asyncBeh router st route onComplete onAbort =
        runQueueGo (iteratorStep env asyncBeh onAbort route st.current)
          (stage1Final env asyncBeh router route st.current
            (resolveQueue st.current.matched route.matched).activated onComplete onAbort)
          (confirmQueue router (resolveQueue st.current.matched route.matched))
          { st with pending := some route }) ∧
    (∀ (router : Router) (rq : RQ), confirmQueue router rq =
      extractLeaveGuards rq.deactivated
        ++ router.beforeHooks.map (fun g => some (QItem.guard g))
        ++ extractUpdateHooks rq.updated
        ++ rq.activated.map (fun m => m.beforeEnter.map QItem.guard)
        ++ [some (QItem.asyncResolve rq.activated)]) ∧
    (∀ deactivated : List RouteRecord, extractLeaveGuards deactivated =
      ((flatMapComponents deactivated
        (fun d i m k => d.beforeRouteLeave.map (fun g => bindGuard g i m k))).reverse).flatten) ∧
    extractLeaveGuards [recD2, recD1] =
      [some (QItem.guard 51), some (QItem.guard 41)] ∧
    transitionToRoute envProceed asyncProceed routerC stC routeN =
      ({ current := routeN, pending := none, ready := true,
         readyCbs := [80], readyErrorCbs := [], errorCbs := [], cb := some 81 },
        [Event.guardCalled (QItem.guard 51), Event.guardCalled (QItem.guard 41),
          Event.guardCalled (QItem.guard 70), Event.guardCalled (QItem.guard 31),
          Event.guardCalled (QItem.guard 62),
          Event.guardCalled (QItem.asyncResolve [recN1]),
          Event.guardCalled (QItem.enterGuard 61 recN1 "d"),
          Event.guardCalled (QItem.guard 71),
          Event.listenCb 81 routeN, Event.afterHook 72 routeN routeC,
          Event.completeCb routeN, Event.ensureURL false,
          Event.readyCb 80 (some routeN), Event.nextTickScheduled]) := by
  refine ⟨?_, fun router rq => rfl, ?_, by decide, by decide⟩
  · intro env asyncBeh router st route onComplete onAbort h
    unfold confirmTransition
    rw [if_neg (by simp [h])]
  · intro deactivated
    simp [extractLeaveGuards, extractGuards]

theorem c1_pipeline_order_witness :
    confirmTransition envProceed asyncProceed routerC stC routeN
        (onCompleteT routerC routeN) onAbortT =
      runQueueGo (iteratorStep envProceed asyncProceed onAbortT routeN stC.current)
        (stage1Final envProceed asyncProceed routerC routeN stC.current
          (resolveQueue stC.current.matched routeN.matched).activated
          (onCompleteT routerC routeN) onAbortT)
        (confirmQueue routerC (resolveQueue stC.current.matched routeN.matched))
        { stC with pending := some routeN } :=
  c1_pipeline_order.1 envProceed asyncProceed routerC stC routeN
    (onCompleteT routerC routeN) onAbortT (by decide)

end VRouter
